import Mathlib

/-!
Shallow embedding, in Lean 4, of the core simulation engine of the
rolling-chain match-3 game (repository `claude-zuma`), together with
theorems settling the specification claims about it.

Conventions of the embedding:
* pixel quantities (`distanceAlongPath`, velocities, elapsed time) are
  rationals `ℚ`; the source's IEEE doubles are exact on every value the
  claims exercise;
* the chain's doubly-linked list of balls is a Lean `List` in head→tail
  order (head = closest to the hole); pointer identity of `Ball` objects
  is the `id` field, unique by construction in the source (`generateId`);
* `Math.random`-driven choices (ball colors, ids) are passed in as
  explicit parameters, so every definition is a pure function of its
  inputs, exactly as the corresponding source method is a function of
  its inputs and the random draws it makes.

Sources embedded: `src/core/types.ts` (constants, colors),
`src/core/Ball.ts`, `src/core/Chain.ts`, `src/core/Collision.ts`,
`src/core/Shooter.ts` (shooter and score halves), `src/core/Path.ts`
(constructor guard and segment layout) and the `BallSpawner` class.
-/

namespace Zuma

/-- Ball colors (`BallColor` enum in `types.ts`). -/
inductive BallColor where
  | red
  | blue
  | green
  | yellow
  | purple
deriving DecidableEq

/-- `BALL_RADIUS = 16` from `types.ts`. -/
def BALL_RADIUS : ℚ := 16

/-- `SNAP_BACK_SPEED = 400` from `types.ts`. -/
def SNAP_BACK_SPEED : ℚ := 400

/-- A chain-resident ball (`Ball.ts`): stable identity, color and the
scalar `distanceAlongPath`.  The flight-phase fields (`x`, `y`,
velocity) and the visual `state` play no role in any claim about the
chain and are omitted; `prev`/`next` pointers are represented by the
position of the ball in the chain's list. -/
structure Ball where
  id : ℕ
  color : BallColor
  dist : ℚ
deriving DecidableEq

/-- The chain (`Chain.ts`): balls in head→tail order plus the movement
and gap-closing state fields of the class. -/
structure Chain where
  balls : List Ball
  velocity : ℚ := 50
  splitPoint : Option ℚ := none
  backVelocity : ℚ := 0
  isClosingGap : Bool := false
deriving DecidableEq

/-- `Chain.pushBallsBack`: starting from the ball after the inserted
one, push each ball tail-ward to at least `prevDistance + 2*BALL_RADIUS`,
carrying the (possibly raised) distance forward. -/
def pushBallsBack (prevDist : ℚ) : List Ball → List Ball
  | [] => []
  | b :: rest =>
    let d := if b.dist < prevDist + 2 * BALL_RADIUS then prevDist + 2 * BALL_RADIUS else b.dist
    { b with dist := d } :: pushBallsBack d rest

/-- `Chain.insertBall(ball, afterBall)`: list splice followed by
`pushBallsBack(ball)`.  `after = none` inserts at the head (the
`afterBall === null` branch); `after = some i` inserts after the ball at
position `i` of the chain. -/
def Chain.insertBall (ch : Chain) (ball : Ball) (after : Option ℕ) : Chain :=
  match after with
  | none => { ch with balls := ball :: pushBallsBack ball.dist ch.balls }
  | some i =>
      { ch with
        balls := ch.balls.take (i + 1) ++ ball :: pushBallsBack ball.dist (ch.balls.drop (i + 1)) }

/-- `Chain.isEmpty`. -/
def Chain.isEmpty (ch : Chain) : Bool := ch.balls.isEmpty

/-- `Chain.getFrontBall`: the head ball. -/
def Chain.getFrontBall (ch : Chain) : Option Ball := ch.balls.head?

/-- `Chain.getLength`. -/
def Chain.getLength (ch : Chain) : ℕ := ch.balls.length

/-- The spec's spacing requirement on a chain: every pair of
chain-adjacent balls is at least `2*BALL_RADIUS` apart
(`|distance_next − distance_prev| ≥ 2*radius`). -/
def spacedPair (a b : Ball) : Prop := 2 * BALL_RADIUS ≤ |b.dist - a.dist|

instance (a b : Ball) : Decidable (spacedPair a b) :=
  inferInstanceAs (Decidable (2 * BALL_RADIUS ≤ |b.dist - a.dist|))

/-- Spacing invariant over a whole chain. -/
def Chain.spacingOk (ch : Chain) : Prop := List.Chain' spacedPair ch.balls

instance (ch : Chain) : Decidable ch.spacingOk :=
  inferInstanceAs (Decidable (List.Chain' spacedPair ch.balls))

/-- The ordering invariant stated in the repository's own data model
document: walking head→tail, `distanceAlongPath` is strictly
increasing. -/
def Chain.ordered (ch : Chain) : Prop :=
  List.Chain' (fun a b => a.dist < b.dist) ch.balls

instance (ch : Chain) : Decidable ch.ordered :=
  inferInstanceAs (Decidable (List.Chain' (fun a b : Ball => a.dist < b.dist) ch.balls))

/-! ### Chain movement (`Chain.update` and friends, `Chain.ts`) -/

/-- `Chain.updateNormalMovement(deltaTime)`: every ball's distance
decreases by `velocity * deltaTime`. -/
def Chain.updateNormalMovement (ch : Chain) (dt : ℚ) : Chain :=
  { ch with balls := ch.balls.map fun b => { b with dist := b.dist - ch.velocity * dt } }

/-- The scan in `updateGapClosing` locating the back portion: the index
of the first ball (from the head) with `distanceAlongPath ≥ splitPoint`. -/
def findBackStart (sp : ℚ) : List Ball → Option ℕ
  | [] => none
  | b :: r => if sp ≤ b.dist then some 0 else (findBackStart sp r).map (· + 1)

/-- The re-packing loop of `snapGapClosed`: each successive ball is
placed exactly `2*BALL_RADIUS` after the previous one, starting from
distance `d`. -/
def repackFrom (d : ℚ) : List Ball → List Ball
  | [] => []
  | b :: r =>
    { b with dist := d + 2 * BALL_RADIUS } :: repackFrom (d + 2 * BALL_RADIUS) r

/-- `Chain.updateGapClosing(deltaTime)`: move every ball from the first
one at or beyond `splitPoint` by `backVelocity * deltaTime`; if the ball
starting the back portion then sits within `2*BALL_RADIUS` of its
predecessor, `snapGapClosed` runs: the back ball snaps to exactly
`front + 2*BALL_RADIUS`, the rest of the chain is re-packed at uniform
`2*BALL_RADIUS` spacing, and the gap state is cleared. -/
def Chain.updateGapClosing (ch : Chain) (dt : ℚ) : Chain :=
  match ch.splitPoint with
  | none => ch
  | some sp =>
    let mv := ch.backVelocity * dt
    match findBackStart sp ch.balls with
    | none => ch
    | some i =>
      let moved := ch.balls.take i ++ (ch.balls.drop i).map fun b => { b with dist := b.dist + mv }
      match i with
      | 0 => { ch with balls := moved }
      | j + 1 =>
        match moved[j]?, moved[j + 1]? with
        | some f, some b =>
          if b.dist - f.dist ≤ 2 * BALL_RADIUS then
            { ch with
              balls := moved.take (j + 1) ++
                { b with dist := f.dist + 2 * BALL_RADIUS } ::
                  repackFrom (f.dist + 2 * BALL_RADIUS) (moved.drop (j + 2)),
              splitPoint := none,
              backVelocity := 0,
              isClosingGap := false }
          else { ch with balls := moved }
        | _, _ => { ch with balls := moved }

/-- `Chain.isGapClosing()`. -/
def Chain.isGapClosing (ch : Chain) : Bool := ch.isClosingGap

/-- `Chain.update(deltaTime)`: dispatch between gap-closing and normal
movement on `isClosingGap`. -/
def Chain.update (ch : Chain) (dt : ℚ) : Chain :=
  if ch.isClosingGap then ch.updateGapClosing dt else ch.updateNormalMovement dt

/-- `k` repeated ticks of `Chain.update` with a fixed `deltaTime`. -/
def Chain.updateIter (ch : Chain) (dt : ℚ) : ℕ → Chain
  | 0 => ch
  | k + 1 => (ch.updateIter dt k).update dt

/-! ### Collision engine (`Collision.ts`) -/

/-- `checkHoleCollision(chain)`: the defeat test — false on an empty
chain, otherwise true exactly when the head ball's distance is ≤ 0. -/
def checkHoleCollision (ch : Chain) : Bool :=
  if ch.isEmpty then false
  else
    match ch.getFrontBall with
    | none => false
    | some b => decide (b.dist ≤ 0)

/-- `findMatch(startBall)` from `Collision.ts`: scan backward (toward
the head) collecting same-colored balls, then forward (toward the
tail), forming the contiguous run containing the start ball; return it
only when it has at least 3 balls.  The start ball is addressed by its
position `i` in the chain; the backward pointer walk with `unshift` is
the reversed `takeWhile` of the reversed prefix. -/
def findMatch (bs : List Ball) (i : ℕ) : Option (List Ball) :=
  match (bs[i]?) with
  | none => none
  | some s =>
    let p : Ball → Bool := fun b => decide (b.color = s.color)
    let back := ((bs.take i).reverse.takeWhile p).reverse
    let fwd := (bs.drop (i + 1)).takeWhile p
    let run := back ++ s :: fwd
    if 3 ≤ run.length then some run else none

/-- `r` is the maximal contiguous run of balls sharing the color of
the ball `s` sitting at position `i` of `bs`: `r` is a contiguous slice
of `bs` covering position `i`, every ball in it has `s`'s color, and the
balls bordering it on either side (when they exist) do not. -/
def IsMaxRun (bs : List Ball) (i : ℕ) (s : Ball) (r : List Ball) : Prop :=
  ∃ pre post,
    bs = pre ++ r ++ post ∧
    pre.length ≤ i ∧ i < pre.length + r.length ∧
    (∀ b ∈ r, b.color = s.color) ∧
    (∀ x, pre.getLast? = some x → x.color ≠ s.color) ∧
    (∀ y, post.head? = some y → y.color ≠ s.color)

/-! ### Batch removal (`Chain.removeBall` / `Chain.removeBalls`) -/

/-- `Chain.removeBall(ball)`: splice one ball out of the linked list.
In the list model this removes the (unique, ids are fresh) ball with
the matching identity. -/
def removeBallFrom : List Ball → Ball → List Ball
  | [], _ => []
  | b :: r, x => if b.id = x.id then r else b :: removeBallFrom r x

/-- One step of the ascending insertion sort modelling
`balls.sort((a, b) => a.distanceAlongPath - b.distanceAlongPath)`;
the `≤` comparison keeps equal-distance elements in input order, as the
stable JS sort does. -/
def insertSortedByDist (x : Ball) : List Ball → List Ball
  | [] => [x]
  | y :: r => if x.dist ≤ y.dist then x :: y :: r else y :: insertSortedByDist x r

/-- Sort a list of balls ascending by `distanceAlongPath`. -/
def sortByDist : List Ball → List Ball
  | [] => []
  | x :: r => insertSortedByDist x (sortByDist r)

/-- The `prev` pointer of the chain-resident ball with `x`'s identity:
the ball immediately before it in head→tail order, `none` when it is
the head (or absent). -/
def prevOfAux (pr : Ball) : List Ball → Ball → Option Ball
  | [], _ => none
  | b :: r, x => if b.id = x.id then some pr else prevOfAux b r x

/-- See `prevOfAux`. -/
def prevOf : List Ball → Ball → Option Ball
  | [], _ => none
  | b :: r, x => if b.id = x.id then none else prevOfAux b r x

/-- The `next` pointer of the chain-resident ball with `x`'s identity:
the predecessor in the reversed list is the successor in the list. -/
def nextOf (bs : List Ball) (x : Ball) : Option Ball := prevOf bs.reverse x

/-- `Chain.removeBalls(balls)`: sort the batch by distance; the front
boundary is the `prev` of the sorted batch's first (front-most) ball
and the back boundary the `next` of its last (back-most) ball, both
read before removal; every ball of the batch is then removed in turn;
if both boundaries exist, gap closing starts with
`splitPoint = front.distance + 2*BALL_RADIUS` and
`backVelocity = -SNAP_BACK_SPEED`.  Returns the mutated chain and the
two boundaries. -/
def Chain.removeBalls (ch : Chain) (s : List Ball) : Chain × Option Ball × Option Ball :=
  match sortByDist s with
  | [] => (ch, none, none)
  | m :: rest =>
    let mx := (m :: rest).getLast (List.cons_ne_nil m rest)
    let front := prevOf ch.balls m
    let back := nextOf ch.balls mx
    let ch2 : Chain := { ch with balls := (m :: rest).foldl removeBallFrom ch.balls }
    match front, back with
    | some fb, some bb =>
      ({ ch2 with
          splitPoint := some (fb.dist + 2 * BALL_RADIUS),
          backVelocity := -SNAP_BACK_SPEED,
          isClosingGap := true }, some fb, some bb)
    | _, _ => (ch2, front, back)

/-- Modelled from the spec's words for `removeBatch`: "the marker that
preceded the front-most removed marker" — the ball just before the
first ball of the chain satisfying the removal predicate (`none` when
that ball is the head or no ball matches). -/
def boundaryFrontAux (p : Ball → Bool) (pr : Ball) : List Ball → Option Ball
  | [] => none
  | b :: r => if p b then some pr else boundaryFrontAux p b r

/-- See `boundaryFrontAux`. -/
def boundaryFront (p : Ball → Bool) : List Ball → Option Ball
  | [] => none
  | b :: r => if p b then none else boundaryFrontAux p b r

/-- Modelled from the spec's words for `removeBatch`: "the marker that
followed the back-most removed marker" — the ball just after the last
matching ball, i.e. the ball preceding the first match of the reversed
chain. -/
def boundaryBack (p : Ball → Bool) (bs : List Ball) : Option Ball :=
  boundaryFront p bs.reverse

/-! ### Spawner (`BallSpawner` class) -/

/-- Spawner state: the time accumulator and the spawn rate (balls per
second).  The random color source is passed explicitly to the
operations that draw colors. -/
structure Spawner where
  accumulator : ℚ
  spawnRate : ℚ
deriving DecidableEq

/-- `BallSpawner.spawnBall(chain, path)`: refuse when the chain tail is
within `2*BALL_RADIUS` of the spawn point (`path.totalLength`);
otherwise create a ball at the spawn point — its color drawn from the
weighted random source, here an explicit parameter — and insert it
after the tail (at the head when the chain is empty).  Returns the
spawned ball, or `none` when there was no room. -/
def spawnBall (ch : Chain) (L : ℚ) (color : BallColor) (nid : ℕ) : Option Ball × Chain :=
  match ch.balls.getLast? with
  | some t =>
    if L - t.dist < 2 * BALL_RADIUS then (none, ch)
    else
      let b : Ball := ⟨nid, color, L⟩
      (some b, ch.insertBall b (some (ch.balls.length - 1)))
  | none =>
    let b : Ball := ⟨nid, color, L⟩
    (some b, ch.insertBall b none)

/-- The `while` loop of `BallSpawner.update`: while a full spawn
interval is accumulated and the chain is below `maxBalls`, attempt one
spawn (counting it only when a ball was actually produced) and consume
one interval.  The loop is given as fuel-indexed recursion; since every
iteration consumes one interval from the accumulator, the loop runs at
most `⌊accumulator/interval⌋` iterations whenever `interval > 0`, so a
fuel of `⌊accumulator/interval⌋ + 1` makes this identical to the
source's unbounded loop for every positive spawn rate (spawn rates are
positive level constants). -/
def spawnLoop (L interval : ℚ) (maxBalls : ℕ) (colors : ℕ → BallColor) :
    ℕ → ℚ → Chain → ℕ → ℕ → ℚ × Chain × ℕ × ℕ
  | 0, acc, ch, nid, spawned => (acc, ch, nid, spawned)
  | fuel + 1, acc, ch, nid, spawned =>
    if interval ≤ acc ∧ ch.getLength < maxBalls then
      let r := spawnBall ch L (colors nid) nid
      spawnLoop L interval maxBalls colors fuel (acc - interval) r.2
        (nid + if r.1.isSome then 1 else 0)
        (spawned + if r.1.isSome then 1 else 0)
    else (acc, ch, nid, spawned)

/-- The outcome of one `BallSpawner.update` call: the number of balls
spawned (the return value), the new accumulator and chain (mutated in
place in the source), and the next fresh ball identity. -/
structure SpawnTick where
  spawned : ℕ
  accumulator : ℚ
  chain : Chain
  nextId : ℕ
deriving DecidableEq

/-- `BallSpawner.update(deltaTime, chain, path, maxBalls)`: add the
elapsed time to the accumulator, then run the spawn loop with
`spawnInterval = 1 / spawnRate`. -/
def Spawner.update (sp : Spawner) (dt : ℚ) (ch : Chain) (L : ℚ) (maxBalls : ℕ)
    (colors : ℕ → BallColor) (nid : ℕ) : SpawnTick :=
  let acc := sp.accumulator + dt
  let interval := 1 / sp.spawnRate
  let r := spawnLoop L interval maxBalls colors ((⌊acc / interval⌋).toNat + 1) acc ch nid 0
  ⟨r.2.2.2, r.1, r.2.1, r.2.2.1⟩

/-- The loop body of `BallSpawner.spawnInitialBalls`: place `n` more
balls, the next at distance `d`, each inserted after the current tail
(at the head when the chain is empty), stepping the distance down by
`2*BALL_RADIUS` each time. -/
def spawnInitialAux (colors : ℕ → BallColor) : ℕ → ℕ → ℚ → Chain → Chain
  | 0, _, _, ch => ch
  | n + 1, i, d, ch =>
    let b : Ball := ⟨i, colors i, d⟩
    let ch' :=
      match ch.balls.getLast? with
      | some _ => ch.insertBall b (some (ch.balls.length - 1))
      | none => ch.insertBall b none
    spawnInitialAux colors n (i + 1) (d - 2 * BALL_RADIUS) ch'

/-- `BallSpawner.spawnInitialBalls(chain, path, count)`: starting from
`currentDistance = path.totalLength`, insert `count` balls after the
tail, decreasing the distance by `2*BALL_RADIUS` per ball. -/
def spawnInitialBalls (ch : Chain) (L : ℚ) (count : ℕ) (colors : ℕ → BallColor) : Chain :=
  spawnInitialAux colors count 0 L ch

end Zuma

namespace Zuma

/-! ### Score (`Score` class, second half of `Shooter.ts`) -/

/-- Score state: current-level points and the chain multiplier
(the persisted totals are irrelevant to the scoring claim). -/
structure Score where
  current : ℕ
  chainMultiplier : ℕ
deriving DecidableEq

/-- `Score.addMatchPoints(ballCount)`: tiered base points scaled by the
chain multiplier, added to the current-level score; the awarded amount
is returned alongside the new state. -/
def Score.addMatchPoints (s : Score) (ballCount : ℕ) : ℕ × Score :=
  if ballCount = 3 then
    let points := 100 * s.chainMultiplier
    (points, { s with current := s.current + points })
  else if ballCount = 4 then
    let points := 150 * s.chainMultiplier
    (points, { s with current := s.current + points })
  else if 5 ≤ ballCount then
    let points := (200 + 50 * (ballCount - 5)) * s.chainMultiplier
    (points, { s with current := s.current + points })
  else
    (0, s)

/-- The tier table exactly as the specification words it: 3 markers
award 100, 4 award 150, and n ≥ 5 award `200 + 50×(n−5)` base points. -/
def specBasePoints (n : ℕ) : ℕ :=
  if n = 3 then 100 else if n = 4 then 150 else 200 + 50 * (n - 5)

/-! ### Shooter (`Shooter` class, first half of `Shooter.ts`) -/

/-- A 2D point with rational coordinates. -/
structure Point where
  x : ℚ
  y : ℚ
deriving DecidableEq

/-- Shooter state: fixed position, aim rotation, the two held colors
and the cooldown timer. -/
structure Shooter where
  position : Point
  rotation : ℚ
  currentBall : BallColor
  reserveBall : BallColor
  cooldown : ℚ
deriving DecidableEq

/-- `Shooter.swap()`: exchange `currentBall` and `reserveBall`. -/
def Shooter.swap (s : Shooter) : Shooter :=
  { s with currentBall := s.reserveBall, reserveBall := s.currentBall }

/-! ### Path construction guard (`Path.ts` constructor) -/

/-- The data the `Path` constructor validates and stores.  The
constructor additionally precomputes the float arc-length lookup table
(chord sums of square roots); that numeric table is irrelevant to the
construction-error claim and is not modelled. -/
structure Path where
  controlPoints : List Point
deriving DecidableEq

/-- The `Path` constructor's validation: it throws
`'Path requires at least 4 control points'` when fewer than 4 control
points are supplied, and otherwise produces the path object. -/
def Path.construct (pts : List Point) : Except String Path :=
  if pts.length < 4 then
    Except.error "Path requires at least 4 control points"
  else
    Except.ok { controlPoints := pts }

/-- `Math.floor((controlPoints.length - 1) / 3)`: the number of complete
cubic segments the evaluators (`getPointAtT`, `getTangentAtT`) use. -/
def Path.numSegments (p : Path) : ℕ := (p.controlPoints.length - 1) / 3

end Zuma

namespace Zuma

/-! ### Theorems for claims C4, C9, C10 -/

/-- C4: for every run size n ≥ 3 and chain multiplier m ≥ 1,
`addMatchPoints n` awards exactly `base(n) × m` points, where
`base(3)=100`, `base(4)=150` and `base(n)=200+50×(n−5)` for n ≥ 5
(so `base 5 = 200` and `base 7 = 300`); the award is added to the
current-level score and returned. -/
theorem C4_award_run (s : Score) (n : ℕ) (hn : 3 ≤ n) (_hm : 1 ≤ s.chainMultiplier) :
    (s.addMatchPoints n).1 = specBasePoints n * s.chainMultiplier ∧
    (s.addMatchPoints n).2.current = s.current + specBasePoints n * s.chainMultiplier ∧
    (s.addMatchPoints n).2.chainMultiplier = s.chainMultiplier ∧
    specBasePoints 5 = 200 ∧ specBasePoints 7 = 300 := by
  unfold Score.addMatchPoints specBasePoints
  rcases Nat.lt_or_ge n 5 with h5 | h5
  · interval_cases n <;> simp
  · have h3 : n ≠ 3 := by omega
    have h4 : n ≠ 4 := by omega
    simp [h3, h4, h5]

/-- Witness for C4 at n = 7, multiplier 2. -/
theorem C4_award_run_witness :
    (Score.addMatchPoints ⟨0, 2⟩ 7).1 = specBasePoints 7 * 2 ∧
    (Score.addMatchPoints ⟨0, 2⟩ 7).2.current = 0 + specBasePoints 7 * 2 ∧
    (Score.addMatchPoints ⟨0, 2⟩ 7).2.chainMultiplier = 2 ∧
    specBasePoints 5 = 200 ∧ specBasePoints 7 = 300 :=
  C4_award_run ⟨0, 2⟩ 7 (by decide) (by decide)

/-- C9: constructing a `Path` fails with an error exactly when fewer
than 4 control points are supplied; with ≥ 4 points it succeeds, stores
the points, and the resulting geometry is valid: there is at least one
complete cubic segment, and every segment index addresses four control
points that exist. -/
theorem C9_path_construction (pts : List Point) :
    ((∃ e, Path.construct pts = Except.error e) ↔ pts.length < 4) ∧
    (∀ p, Path.construct pts = Except.ok p →
      p.controlPoints = pts ∧ 1 ≤ p.numSegments ∧
      ∀ seg, seg < p.numSegments → 3 * seg + 3 < pts.length) := by
  unfold Path.construct
  by_cases h : pts.length < 4
  · simp only [if_pos h]
    refine ⟨⟨fun _ => h, fun _ => ⟨_, rfl⟩⟩, ?_⟩
    intro p hp
    exact absurd hp (by simp)
  · simp only [if_neg h]
    refine ⟨⟨?_, fun hlt => absurd hlt h⟩, ?_⟩
    · rintro ⟨e, he⟩
      exact absurd he (by simp)
    · intro p hp
      have hpp : p = { controlPoints := pts } := by
        cases hp
        rfl
      subst hpp
      push_neg at h
      refine ⟨rfl, ?_, ?_⟩
      · show 1 ≤ (pts.length - 1) / 3
        omega
      · intro seg hseg
        unfold Path.numSegments at hseg
        simp only at hseg
        omega

/-- Witness for C9: a 4-point list constructs successfully with one
segment, and a 3-point list is rejected. -/
theorem C9_path_construction_witness :
    ¬ ((∃ e, Path.construct [⟨0, 0⟩, ⟨1, 0⟩, ⟨2, 0⟩, ⟨3, 0⟩] = Except.error e)) ∧
    (∃ e, Path.construct [⟨0, 0⟩, ⟨1, 0⟩, ⟨2, 0⟩] = Except.error e) := by
  constructor
  · intro he
    exact absurd ((C9_path_construction [⟨0, 0⟩, ⟨1, 0⟩, ⟨2, 0⟩, ⟨3, 0⟩]).1.mp he) (by decide)
  · exact (C9_path_construction [⟨0, 0⟩, ⟨1, 0⟩, ⟨2, 0⟩]).1.mpr (by decide)

/-- C10: `Shooter.swap` exchanges the two held colors, leaves
rotation, cooldown and position unchanged, and is an involution. -/
theorem C10_swap_involution (s : Shooter) :
    s.swap.currentBall = s.reserveBall ∧
    s.swap.reserveBall = s.currentBall ∧
    s.swap.rotation = s.rotation ∧
    s.swap.cooldown = s.cooldown ∧
    s.swap.position = s.position ∧
    s.swap.swap = s :=
  ⟨rfl, rfl, rfl, rfl, rfl, rfl⟩

/-! ### Claim C1: the spacing invariant under insertion -/

/-- Whatever list `pushBallsBack` is run on, the resulting head ball
sits at least `2*BALL_RADIUS` beyond the carried-in distance. -/
theorem pushBallsBack_head (d : ℚ) (l : List Ball) :
    ∀ x, (pushBallsBack d l).head? = some x → d + 2 * BALL_RADIUS ≤ x.dist := by
  cases l with
  | nil => intro x hx; cases hx
  | cons b r =>
    intro x hx
    simp only [pushBallsBack, List.head?_cons, Option.some.injEq] at hx
    subst hx
    by_cases h : b.dist < d + 2 * BALL_RADIUS
    · simp [h]
    · simp only [if_neg h]
      exact le_of_not_lt h

/-- The list produced by `pushBallsBack` has all adjacent pairs at
least `2*BALL_RADIUS` apart. -/
theorem pushBallsBack_chain (d : ℚ) (l : List Ball) :
    List.Chain' spacedPair (pushBallsBack d l) := by
  induction l generalizing d with
  | nil => simp [pushBallsBack]
  | cons b r ih =>
    simp only [pushBallsBack]
    rw [List.chain'_cons']
    constructor
    · intro y hy
      have hle : (if b.dist < d + 2 * BALL_RADIUS then d + 2 * BALL_RADIUS else b.dist)
          + 2 * BALL_RADIUS ≤ y.dist := pushBallsBack_head _ r y hy
      have hr : (0 : ℚ) < BALL_RADIUS := by norm_num [BALL_RADIUS]
      unfold spacedPair
      dsimp only
      rw [abs_of_nonneg (by linarith)]
      linarith
    · exact ih _

/-- The inserted ball together with everything `pushBallsBack` touched
forms a correctly spaced suffix. -/
theorem insert_suffix_spaced (ball : Ball) (l : List Ball) :
    List.Chain' spacedPair (ball :: pushBallsBack ball.dist l) := by
  rw [List.chain'_cons']
  refine ⟨?_, pushBallsBack_chain _ _⟩
  intro y hy
  have hle := pushBallsBack_head ball.dist l y hy
  have hr : (0 : ℚ) < BALL_RADIUS := by norm_num [BALL_RADIUS]
  unfold spacedPair
  rw [abs_of_nonneg (by linarith)]
  linarith

/-- C1 counterexample: in the single-ball chain `[a]` with `a` at
distance 0, inserting a ball at distance 0 after `a` (exactly the
distance `checkBallChainCollision` computes when its `insertBefore`
clamp floors the insertion distance) leaves the adjacent pair `(a, new)`
at distance 0 < `2*BALL_RADIUS`: the claimed all-pairs spacing
invariant fails, because `pushBallsBack` never separates the inserted
ball from its predecessor. -/
theorem C1_counterexample :
    ¬ (Chain.insertBall ⟨[⟨0, BallColor.red, 0⟩], 50, none, 0, false⟩
        ⟨1, BallColor.red, 0⟩ (some 0)).spacingOk := by
  show ¬ List.Chain' spacedPair [⟨0, BallColor.red, 0⟩, ⟨1, BallColor.red, 0⟩]
  rw [List.chain'_cons]
  rintro ⟨hab, -⟩
  simp only [spacedPair] at hab
  norm_num [BALL_RADIUS] at hab

/-- C1 amended: after `insertBall`, every chain-adjacent pair from the
inserted ball toward the tail satisfies the `2*BALL_RADIUS` spacing
bound — for a head insertion this is the entire chain — while the pair
formed by the inserted ball and its predecessor is not adjusted and may
remain closer. -/
theorem C1_spacing_amended (ch : Chain) (ball : Ball) (i : ℕ) :
    (ch.insertBall ball none).spacingOk ∧
    (ch.insertBall ball (some i)).balls
      = ch.balls.take (i + 1) ++ ball :: pushBallsBack ball.dist (ch.balls.drop (i + 1)) ∧
    List.Chain' spacedPair (ball :: pushBallsBack ball.dist (ch.balls.drop (i + 1))) := by
  refine ⟨?_, rfl, insert_suffix_spaced _ _⟩
  show List.Chain' spacedPair (ball :: pushBallsBack ball.dist ch.balls)
  exact insert_suffix_spaced _ _

/-! ### Claim C8: the hole-reached (defeat) condition -/

/-- Iterating `Chain.update` on a chain that is not gap-closing moves
every ball down by `k * velocity * dt` and changes nothing else. -/
theorem updateIter_normal (ch : Chain) (dt : ℚ) (hng : ch.isClosingGap = false) :
    ∀ k : ℕ,
      (ch.updateIter dt k).isClosingGap = false ∧
      (ch.updateIter dt k).velocity = ch.velocity ∧
      (ch.updateIter dt k).balls
        = ch.balls.map fun b => { b with dist := b.dist - k * (ch.velocity * dt) } := by
  intro k
  induction k with
  | zero =>
    refine ⟨hng, rfl, ?_⟩
    simp only [Chain.updateIter, Nat.cast_zero, zero_mul, sub_zero]
    exact (List.map_id ch.balls).symm
  | succ k ih =>
    obtain ⟨h1, h2, h3⟩ := ih
    have hstep : (ch.updateIter dt (k + 1))
        = (ch.updateIter dt k).updateNormalMovement dt := by
      simp only [Chain.updateIter, Chain.update, h1, Bool.false_eq_true, if_false]
    refine ⟨?_, ?_, ?_⟩
    · rw [hstep]; exact h1
    · rw [hstep]; exact h2
    · rw [hstep]
      simp only [Chain.updateNormalMovement, h2, h3, List.map_map]
      apply List.map_congr_left
      intro b _
      have harith : b.dist - (k : ℚ) * (ch.velocity * dt) - ch.velocity * dt
          = b.dist - ((k : ℕ) + 1 : ℕ) * (ch.velocity * dt) := by
        push_cast
        ring
      simp only [Function.comp_apply]
      rw [harith]

/-- C8: `checkHoleCollision` is true exactly when the chain is
non-empty with head distance ≤ 0 (hence false on the empty chain and
false while the head distance is positive); and under repeated
`update(dt)` ticks of a non-gap-closing chain it is true at tick `k`
exactly when the head's initial distance has been consumed, i.e. it
first turns true at the first tick where the head distance reaches ≤ 0
and never before. -/
theorem C8_hole_reached (ch : Chain) (dt : ℚ) (hng : ch.isClosingGap = false) :
    (checkHoleCollision ch = true ↔ ∃ b, ch.balls.head? = some b ∧ b.dist ≤ 0) ∧
    (∀ (k : ℕ) (b : Ball), ch.balls.head? = some b →
      (checkHoleCollision (ch.updateIter dt k) = true
        ↔ b.dist - k * (ch.velocity * dt) ≤ 0)) := by
  constructor
  · cases hb : ch.balls with
    | nil =>
      simp [checkHoleCollision, Chain.isEmpty, Chain.getFrontBall, hb]
    | cons a r =>
      simp [checkHoleCollision, Chain.isEmpty, Chain.getFrontBall, hb]
  · intro k b hb
    obtain ⟨_, _, h3⟩ := updateIter_normal ch dt hng k
    have hhead : (ch.updateIter dt k).balls.head?
        = some { b with dist := b.dist - k * (ch.velocity * dt) } := by
      rw [h3, List.head?_map, hb]
      rfl
    cases hb2 : (ch.updateIter dt k).balls with
    | nil => rw [hb2] at hhead; cases hhead
    | cons a r =>
      rw [hb2] at hhead
      simp only [List.head?_cons, Option.some.injEq] at hhead
      subst hhead
      simp [checkHoleCollision, Chain.isEmpty, Chain.getFrontBall, hb2]

/-! ### Claim C7: `findMatch` returns exactly the maximal run, min 3 -/

/-- The first element surviving `dropWhile` fails the predicate. -/
theorem dropWhile_head_false {α : Type} (p : α → Bool) :
    ∀ (l : List α) (x : α), (l.dropWhile p).head? = some x → p x = false := by
  intro l
  induction l with
  | nil => intro x hx; cases hx
  | cons a r ih =>
    intro x hx
    rw [List.dropWhile_cons] at hx
    by_cases h : p a
    · rw [if_pos h] at hx
      exact ih x hx
    · rw [if_neg h] at hx
      simp only [List.head?_cons, Option.some.injEq] at hx
      subst hx
      rw [Bool.not_eq_true] at h
      exact h

/-- Every element collected by `takeWhile` satisfies the predicate. -/
theorem mem_takeWhile_sat {α : Type} (p : α → Bool) :
    ∀ (l : List α) (x : α), x ∈ l.takeWhile p → p x = true := by
  intro l
  induction l with
  | nil => intro x hx; cases hx
  | cons a r ih =>
    intro x hx
    rw [List.takeWhile_cons] at hx
    by_cases h : p a
    · rw [if_pos h] at hx
      rcases List.mem_cons.mp hx with h1 | h1
      · subst h1; exact h
      · exact ih x h1
    · rw [if_neg h] at hx
      cases hx

/-- C7: for every chain-resident start ball, the maximal contiguous
same-color run containing it exists, and `findMatch` returns exactly
that run when it has length ≥ 3 and `none` otherwise; in particular
`findMatch` never returns a run of fewer than 3 balls. -/
theorem C7_find_match (bs : List Ball) (i : ℕ) (s : Ball) (hs : bs[i]? = some s) :
    ∃ r, IsMaxRun bs i s r ∧ s ∈ r ∧
      findMatch bs i = (if 3 ≤ r.length then some r else none) ∧
      (∀ r2, findMatch bs i = some r2 → 3 ≤ r2.length) := by
  have hi : i < bs.length := by
    by_contra hge
    rw [List.getElem?_eq_none (le_of_not_lt hge)] at hs
    cases hs
  have hgot : bs[i] = s := by
    have h0 := List.getElem?_eq_getElem hi
    rw [hs] at h0
    exact Option.some.inj h0.symm
  have hdropi : bs.drop i = s :: bs.drop (i + 1) := by
    rw [List.drop_eq_getElem_cons hi, hgot]
  set p : Ball → Bool := fun b => decide (b.color = s.color) with hp
  set back : List Ball := ((bs.take i).reverse.takeWhile p).reverse with hback
  set fwd : List Ball := (bs.drop (i + 1)).takeWhile p with hfwd
  set pre : List Ball := ((bs.take i).reverse.dropWhile p).reverse with hpre
  set post : List Ball := (bs.drop (i + 1)).dropWhile p with hpost
  have hsplit1 : pre ++ back = bs.take i := by
    rw [hpre, hback, ← List.reverse_append, List.takeWhile_append_dropWhile,
      List.reverse_reverse]
  have hsplit2 : fwd ++ post = bs.drop (i + 1) := by
    rw [hfwd, hpost]
    exact List.takeWhile_append_dropWhile _ _
  have hlen1 : pre.length + back.length = i := by
    have := congrArg List.length hsplit1
    rw [List.length_append, List.length_take] at this
    omega
  have hdecomp : bs = pre ++ (back ++ s :: fwd) ++ post := by
    calc bs = bs.take i ++ bs.drop i := (List.take_append_drop i bs).symm
    _ = (pre ++ back) ++ (s :: (fwd ++ post)) := by rw [hsplit1, hdropi, hsplit2]
    _ = pre ++ (back ++ s :: fwd) ++ post := by simp [List.append_assoc]
  have hfm : findMatch bs i
      = (if 3 ≤ (back ++ s :: fwd).length then some (back ++ s :: fwd) else none) := by
    unfold findMatch
    rw [hs]
  refine ⟨back ++ s :: fwd, ⟨pre, post, hdecomp, ?_, ?_, ?_, ?_, ?_⟩, ?_, ?_, ?_⟩
  · omega
  · simp only [List.length_append, List.length_cons]
    omega
  · intro b hb
    rcases List.mem_append.mp hb with h1 | h1
    · have : b ∈ (bs.take i).reverse.takeWhile p := by
        rw [hback] at h1
        exact List.mem_reverse.mp h1
      have := mem_takeWhile_sat p _ b this
      rw [hp] at this
      exact of_decide_eq_true this
    · rcases List.mem_cons.mp h1 with h2 | h2
      · subst h2; rfl
      · have := mem_takeWhile_sat p _ b (hfwd ▸ h2)
        rw [hp] at this
        exact of_decide_eq_true this
  · intro x hx
    rw [hpre, List.getLast?_reverse] at hx
    have := dropWhile_head_false p _ x hx
    rw [hp] at this
    exact of_decide_eq_false this
  · intro y hy
    rw [hpost] at hy
    have := dropWhile_head_false p _ y hy
    rw [hp] at this
    exact of_decide_eq_false this
  · exact List.mem_append.mpr (Or.inr (List.mem_cons_self s _))
  · exact hfm
  · intro r2 h2
    rw [hfm] at h2
    by_cases h3 : 3 ≤ (back ++ s :: fwd).length
    · rw [if_pos h3] at h2
      cases h2
      exact h3
    · rw [if_neg h3] at h2
      cases h2

/-- Witness for C7: in the tightly packed chain `[red, red, red]`
seeded at the middle ball, the maximal run is the whole chain and is
returned; the theorem instance also certifies that nothing shorter
than 3 is ever returned. -/
theorem C7_find_match_witness :
    ∃ r, IsMaxRun [⟨0, BallColor.red, 0⟩, ⟨1, BallColor.red, 32⟩, ⟨2, BallColor.red, 64⟩]
        1 ⟨1, BallColor.red, 32⟩ r ∧
      (⟨1, BallColor.red, 32⟩ : Ball) ∈ r ∧
      findMatch [⟨0, BallColor.red, 0⟩, ⟨1, BallColor.red, 32⟩, ⟨2, BallColor.red, 64⟩] 1
        = (if 3 ≤ r.length then some r else none) ∧
      (∀ r2, findMatch [⟨0, BallColor.red, 0⟩, ⟨1, BallColor.red, 32⟩, ⟨2, BallColor.red, 64⟩] 1
        = some r2 → 3 ≤ r2.length) :=
  C7_find_match _ 1 _ rfl

/-! ### Claim C6: the gap-closing snap -/

/-- `repackFrom` overwrites every distance, so a uniform shift applied
to the input distances beforehand is invisible. -/
theorem repackFrom_map_shift (mv : ℚ) :
    ∀ (l : List Ball) (d : ℚ),
      repackFrom d (l.map fun x => { x with dist := x.dist + mv }) = repackFrom d l := by
  intro l
  induction l with
  | nil => intro d; rfl
  | cons a r ih =>
    intro d
    simp only [List.map_cons, repackFrom]
    rw [ih]

/-- Walking a `repackFrom` block from a ball whose distance is the
starting distance, every adjacent pair is exactly `2*BALL_RADIUS`
apart. -/
theorem chain'_exact_repackFrom :
    ∀ (l : List Ball) (a : Ball) (d : ℚ), a.dist = d →
      List.Chain' (fun x y => y.dist = x.dist + 2 * BALL_RADIUS) (a :: repackFrom d l) := by
  intro l
  induction l with
  | nil =>
    intro a d _
    simp [repackFrom]
  | cons b r ih =>
    intro a d ha
    simp only [repackFrom]
    rw [List.chain'_cons]
    constructor
    · simp [ha]
    · exact ih _ _ rfl

/-- C6: during an active gap-closing maneuver, when the update step
leaves the first ball at or beyond the split point within
`2*BALL_RADIUS` of its predecessor, the maneuver ends in that step:
the gap state is cleared (`isGapClosing()` reports false), the chain
becomes the untouched front portion followed by a block re-packed from
the front boundary ball `f`, whose first ball is the back boundary
ball at exactly `f.dist + 2*BALL_RADIUS`, and from `f` tail-ward every
adjacent pair is exactly — hence at least — `2*BALL_RADIUS` apart. -/
theorem C6_gap_snap (ch : Chain) (dt : ℚ) (sp : ℚ) (j : ℕ) (f b : Ball)
    (_hcg : ch.isClosingGap = true)
    (hsp : ch.splitPoint = some sp)
    (hidx : findBackStart sp ch.balls = some (j + 1))
    (hf : ch.balls[j]? = some f)
    (hb : ch.balls[j + 1]? = some b)
    (hgap : b.dist + ch.backVelocity * dt - f.dist ≤ 2 * BALL_RADIUS) :
    (ch.updateGapClosing dt).isGapClosing = false ∧
    (ch.updateGapClosing dt).splitPoint = none ∧
    (ch.updateGapClosing dt).backVelocity = 0 ∧
    (ch.updateGapClosing dt).balls
      = ch.balls.take (j + 1) ++ repackFrom f.dist (ch.balls.drop (j + 1)) ∧
    (repackFrom f.dist (ch.balls.drop (j + 1))).head?
      = some { b with dist := f.dist + 2 * BALL_RADIUS } ∧
    List.Chain' (fun x y => y.dist = x.dist + 2 * BALL_RADIUS)
      (f :: repackFrom f.dist (ch.balls.drop (j + 1))) ∧
    List.Chain' spacedPair (f :: repackFrom f.dist (ch.balls.drop (j + 1))) := by
  have hjlt : j + 1 < ch.balls.length := by
    by_contra hge
    rw [List.getElem?_eq_none (le_of_not_lt hge)] at hb
    cases hb
  have hjlen : (ch.balls.take (j + 1)).length = j + 1 := by
    rw [List.length_take]
    omega
  set mfn : Ball → Ball := fun x => { x with dist := x.dist + ch.backVelocity * dt } with hmfn
  set moved : List Ball :=
    ch.balls.take (j + 1) ++ (ch.balls.drop (j + 1)).map mfn with hmoved
  have hmj : moved[j]? = some f := by
    rw [hmoved, List.getElem?_append, hjlen, if_pos (Nat.lt_succ_self j),
      List.getElem?_take, if_pos (Nat.lt_succ_self j)]
    exact hf
  have hmj1 : moved[j + 1]? = some (mfn b) := by
    rw [hmoved, List.getElem?_append_right (le_of_eq hjlen), hjlen, Nat.sub_self,
      List.getElem?_map, List.getElem?_drop, Nat.add_zero, hb]
    rfl
  have hcond : (mfn b).dist - f.dist ≤ 2 * BALL_RADIUS := by
    rw [hmfn]
    exact hgap
  have hdropb : ch.balls.drop (j + 1) = b :: ch.balls.drop (j + 2) := by
    have hgot : ch.balls[j + 1] = b := by
      have h0 := List.getElem?_eq_getElem hjlt
      rw [hb] at h0
      exact Option.some.inj h0.symm
    rw [List.drop_eq_getElem_cons hjlt, hgot]
  have hstep : ch.updateGapClosing dt
      = { ch with
          balls := moved.take (j + 1) ++
            { mfn b with dist := f.dist + 2 * BALL_RADIUS } ::
              repackFrom (f.dist + 2 * BALL_RADIUS) (moved.drop (j + 2)),
          splitPoint := none,
          backVelocity := 0,
          isClosingGap := false } := by
    unfold Chain.updateGapClosing
    rw [hsp]
    dsimp only
    rw [hidx]
    dsimp only
    rw [← hmfn, ← hmoved, hmj, hmj1]
    dsimp only
    rw [if_pos hcond]
  have htake : moved.take (j + 1) = ch.balls.take (j + 1) := by
    rw [hmoved]
    exact List.take_left' hjlen
  have hdrop2 : moved.drop (j + 2) = (ch.balls.drop (j + 2)).map mfn := by
    have h1 : moved.drop (j + 2) = ((ch.balls.drop (j + 1)).map mfn).drop 1 := by
      rw [hmoved]
      have h2 : j + 2 = (ch.balls.take (j + 1)).length + 1 := by omega
      rw [h2, List.drop_append]
    rw [h1, ← List.map_drop, List.drop_drop]
  have hrepack : { mfn b with dist := f.dist + 2 * BALL_RADIUS } ::
        repackFrom (f.dist + 2 * BALL_RADIUS) (moved.drop (j + 2))
      = repackFrom f.dist (ch.balls.drop (j + 1)) := by
    rw [hdrop2, hmfn, repackFrom_map_shift, hdropb]
    rfl
  refine ⟨?_, ?_, ?_, ?_, ?_, ?_, ?_⟩
  · rw [hstep]; rfl
  · rw [hstep]
  · rw [hstep]
  · rw [hstep]
    show moved.take (j + 1) ++
        { mfn b with dist := f.dist + 2 * BALL_RADIUS } ::
          repackFrom (f.dist + 2 * BALL_RADIUS) (moved.drop (j + 2))
      = ch.balls.take (j + 1) ++ repackFrom f.dist (ch.balls.drop (j + 1))
    rw [htake, hrepack]
  · rw [hdropb]
    rfl
  · exact chain'_exact_repackFrom _ _ _ rfl
  · refine List.Chain'.imp ?_ (chain'_exact_repackFrom _ f f.dist rfl)
    intro x y hxy
    unfold spacedPair
    rw [hxy]
    have hr : (0 : ℚ) < BALL_RADIUS := by norm_num [BALL_RADIUS]
    rw [abs_of_nonneg (by linarith)]
    linarith

/-- Witness for C6: chain `[f at 0, b at 100]`, split point 50, back
velocity −400, tick 1/5 s: the back ball moves to 20, the gap 20 ≤ 32
triggers the snap, the back ball lands at exactly 32 and the maneuver
ends. -/
theorem C6_gap_snap_witness :
    ((⟨[⟨0, BallColor.red, 0⟩, ⟨1, BallColor.blue, 100⟩], 50, some 50, -400, true⟩ :
        Chain).updateGapClosing (1/5)).isGapClosing = false ∧
    ((⟨[⟨0, BallColor.red, 0⟩, ⟨1, BallColor.blue, 100⟩], 50, some 50, -400, true⟩ :
        Chain).updateGapClosing (1/5)).splitPoint = none ∧
    ((⟨[⟨0, BallColor.red, 0⟩, ⟨1, BallColor.blue, 100⟩], 50, some 50, -400, true⟩ :
        Chain).updateGapClosing (1/5)).backVelocity = 0 ∧
    ((⟨[⟨0, BallColor.red, 0⟩, ⟨1, BallColor.blue, 100⟩], 50, some 50, -400, true⟩ :
        Chain).updateGapClosing (1/5)).balls
      = ([⟨0, BallColor.red, 0⟩, ⟨1, BallColor.blue, 100⟩] : List Ball).take 1 ++
          repackFrom (0 : ℚ) (([⟨0, BallColor.red, 0⟩, ⟨1, BallColor.blue, 100⟩] :
            List Ball).drop 1) ∧
    (repackFrom (0 : ℚ) (([⟨0, BallColor.red, 0⟩, ⟨1, BallColor.blue, 100⟩] :
        List Ball).drop 1)).head?
      = some ⟨1, BallColor.blue, (0 : ℚ) + 2 * BALL_RADIUS⟩ ∧
    List.Chain' (fun x y => y.dist = x.dist + 2 * BALL_RADIUS)
      (⟨0, BallColor.red, 0⟩ :: repackFrom (0 : ℚ)
        (([⟨0, BallColor.red, 0⟩, ⟨1, BallColor.blue, 100⟩] : List Ball).drop 1)) ∧
    List.Chain' spacedPair
      (⟨0, BallColor.red, 0⟩ :: repackFrom (0 : ℚ)
        (([⟨0, BallColor.red, 0⟩, ⟨1, BallColor.blue, 100⟩] : List Ball).drop 1)) := by
  have h := C6_gap_snap
    ⟨[⟨0, BallColor.red, 0⟩, ⟨1, BallColor.blue, 100⟩], 50, some 50, -400, true⟩
    (1/5) 50 0 ⟨0, BallColor.red, 0⟩ ⟨1, BallColor.blue, 100⟩
    rfl rfl ?_ rfl rfl ?_
  · exact h
  · show findBackStart 50 [⟨0, BallColor.red, 0⟩, ⟨1, BallColor.blue, 100⟩] = some 1
    norm_num [findBackStart]
  · show (100 : ℚ) + (-400) * (1/5) - 0 ≤ 2 * BALL_RADIUS
    norm_num [BALL_RADIUS]

/-! ### Claim C5: batch removal and its boundaries -/

/-- Membership through the insertion-sort step. -/
theorem mem_insertSortedByDist (x y : Ball) :
    ∀ l, y ∈ insertSortedByDist x l ↔ y = x ∨ y ∈ l := by
  intro l
  induction l with
  | nil => simp [insertSortedByDist]
  | cons a r ih =>
    simp only [insertSortedByDist]
    by_cases h : x.dist ≤ a.dist
    · simp [h]
    · simp only [if_neg h, List.mem_cons, ih]
      tauto

/-- `sortByDist` has the same members as its input. -/
theorem mem_sortByDist (y : Ball) : ∀ s, y ∈ sortByDist s ↔ y ∈ s := by
  intro s
  induction s with
  | nil => simp [sortByDist]
  | cons a r ih =>
    simp [sortByDist, mem_insertSortedByDist, ih]

/-- The insertion-sort step preserves ascending order. -/
theorem pairwise_insertSortedByDist (x : Ball) :
    ∀ l, l.Pairwise (fun a b => a.dist ≤ b.dist) →
      (insertSortedByDist x l).Pairwise (fun a b => a.dist ≤ b.dist) := by
  intro l
  induction l with
  | nil =>
    intro _
    simp [insertSortedByDist]
  | cons a r ih =>
    intro hp
    rw [List.pairwise_cons] at hp
    obtain ⟨ha, hr⟩ := hp
    simp only [insertSortedByDist]
    by_cases h : x.dist ≤ a.dist
    · rw [if_pos h, List.pairwise_cons]
      refine ⟨?_, List.Pairwise.cons ha hr⟩
      intro b hb
      rcases List.mem_cons.mp hb with h1 | h1
      · subst h1; exact h
      · exact le_trans h (ha b h1)
    · rw [if_neg h, List.pairwise_cons]
      refine ⟨?_, ih hr⟩
      intro b hb
      rcases (mem_insertSortedByDist x b r).mp hb with h1 | h1
      · subst h1
        linarith [lt_of_not_le h]
      · exact ha b h1

/-- `sortByDist` sorts ascending by distance. -/
theorem pairwise_sortByDist :
    ∀ s, (sortByDist s).Pairwise (fun a b => a.dist ≤ b.dist) := by
  intro s
  induction s with
  | nil => simp [sortByDist]
  | cons a r ih => exact pairwise_insertSortedByDist a _ ih

/-- In an ascending list every element is at most the last one. -/
theorem pairwise_le_getLast :
    ∀ (l : List Ball) (h : l ≠ []), l.Pairwise (fun a b => a.dist ≤ b.dist) →
      ∀ x ∈ l, x.dist ≤ (l.getLast h).dist
  | [], h, _, _, _ => absurd rfl h
  | [a], _, _, x, hx => by
    simp only [List.getLast_singleton]
    rw [List.mem_singleton] at hx
    subst hx
    exact le_refl _
  | a :: b :: r, _, hp, x, hx => by
    rw [List.pairwise_cons] at hp
    obtain ⟨ha, hr⟩ := hp
    rw [List.getLast_cons (List.cons_ne_nil b r)]
    rcases List.mem_cons.mp hx with h1 | h1
    · subst h1
      exact ha _ (List.getLast_mem _)
    · exact pairwise_le_getLast (b :: r) (List.cons_ne_nil b r) hr x h1

/-- With fresh identities, removing one ball is filtering out its id. -/
theorem removeBallFrom_eq_filter (x : Ball) :
    ∀ bs : List Ball, (bs.map Ball.id).Nodup →
      removeBallFrom bs x = bs.filter fun b => !(b.id == x.id) := by
  intro bs
  induction bs with
  | nil => intro _; rfl
  | cons b r ih =>
    intro hnd
    rw [List.map_cons, List.nodup_cons] at hnd
    obtain ⟨hb, hr⟩ := hnd
    simp only [removeBallFrom, List.filter_cons]
    by_cases h : b.id = x.id
    · rw [if_pos h]
      have : (!(b.id == x.id)) = false := by simp [h]
      rw [this]
      simp only [Bool.false_eq_true, if_false]
      rw [List.filter_eq_self.mpr]
      intro a ha
      have : a.id ≠ x.id := by
        intro hax
        exact hb (List.mem_map.mpr ⟨a, ha, by omega⟩)
      simp [this]
    · rw [if_neg h]
      have : (!(b.id == x.id)) = true := by simp [h]
      rw [this, if_pos rfl, ih hr]

/-- Removing every ball of a batch one by one is a single filter. -/
theorem foldl_removeBallFrom_eq_filter :
    ∀ (s2 : List Ball) (bs : List Ball), (bs.map Ball.id).Nodup →
      s2.foldl removeBallFrom bs
        = bs.filter fun b => !(s2.any fun x => x.id == b.id) := by
  intro s2
  induction s2 with
  | nil =>
    intro bs _
    simp
  | cons x s3 ih =>
    intro bs hnd
    rw [List.foldl_cons]
    have h1 : removeBallFrom bs x = bs.filter fun b => !(b.id == x.id) :=
      removeBallFrom_eq_filter x bs hnd
    have hnd2 : ((bs.filter fun b => !(b.id == x.id)).map Ball.id).Nodup := by
      refine List.Nodup.sublist ?_ hnd
      exact List.Sublist.map _ (List.filter_sublist bs)
    rw [h1, ih _ hnd2, List.filter_filter]
    apply List.filter_congr
    intro b _
    simp only [List.any_cons, Bool.not_or, Bool.and_comm]
    have : (x.id == b.id) = (b.id == x.id) := by
      by_cases h : x.id = b.id
      · simp [h]
      · simp [h, Ne.symm h]
    rw [this]

/-- The walk computing a ball's `prev` pointer coincides with the walk
to the boundary before the first removal-batch member, provided the
target ball is the first batch member of the chain; the hypotheses say
exactly that: the target is a batch member, no chain ball ordered
before it (by the ordering relation `R` of the chain) is one, and
identities are unique. -/
theorem prevOfAux_eq_boundaryFrontAux (p : Ball → Bool) (R : Ball → Ball → Prop) (m : Ball)
    (hpm : p m = true) :
    ∀ (r : List Ball) (pr : Ball),
      m ∈ r →
      (∀ b ∈ r, p b = true → ¬ R b m) →
      r.Pairwise R →
      (∀ a b, a ∈ r → b ∈ r → a.id = b.id → a = b) →
      prevOfAux pr r m = boundaryFrontAux p pr r := by
  intro r
  induction r with
  | nil => intro pr hm; cases hm
  | cons b r2 ih =>
    intro pr hm hnR hpair hinj
    rw [List.pairwise_cons] at hpair
    obtain ⟨hbR, hpair2⟩ := hpair
    simp only [prevOfAux, boundaryFrontAux]
    by_cases hpb : p b = true
    · have hbm : b = m := by
        by_contra hne
        have hm2 : m ∈ r2 := by
          rcases List.mem_cons.mp hm with h1 | h1
          · exact absurd h1.symm hne
          · exact h1
        exact hnR b (List.mem_cons_self b r2) hpb (hbR m hm2)
      rw [if_pos (show b.id = m.id from congrArg Ball.id hbm), if_pos hpb]
    · have hbm : b.id ≠ m.id := by
        intro hid
        have : b = m := hinj b m (List.mem_cons_self b r2) hm hid
        rw [this] at hpb
        exact hpb hpm
      rw [if_neg hbm, if_neg hpb]
      have hm2 : m ∈ r2 := by
        rcases List.mem_cons.mp hm with h1 | h1
        · exact absurd (congrArg Ball.id h1.symm) hbm
        · exact h1
      exact ih b hm2 (fun a ha hpa => hnR a (List.mem_cons_of_mem b ha) hpa) hpair2
        (fun a a2 ha ha2 => hinj a a2 (List.mem_cons_of_mem b ha) (List.mem_cons_of_mem b ha2))

/-- See `prevOfAux_eq_boundaryFrontAux`. -/
theorem prevOf_eq_boundaryFront (p : Ball → Bool) (R : Ball → Ball → Prop) (m : Ball)
    (hpm : p m = true) :
    ∀ bs : List Ball,
      m ∈ bs →
      (∀ b ∈ bs, p b = true → ¬ R b m) →
      bs.Pairwise R →
      (∀ a b, a ∈ bs → b ∈ bs → a.id = b.id → a = b) →
      prevOf bs m = boundaryFront p bs := by
  intro bs
  cases bs with
  | nil => intro hm; cases hm
  | cons b r =>
    intro hm hnR hpair hinj
    rw [List.pairwise_cons] at hpair
    obtain ⟨hbR, hpair2⟩ := hpair
    simp only [prevOf, boundaryFront]
    by_cases hpb : p b = true
    · have hbm : b = m := by
        by_contra hne
        have hm2 : m ∈ r := by
          rcases List.mem_cons.mp hm with h1 | h1
          · exact absurd h1.symm hne
          · exact h1
        exact hnR b (List.mem_cons_self b r) hpb (hbR m hm2)
      rw [if_pos (show b.id = m.id from congrArg Ball.id hbm), if_pos hpb]
    · have hbm : b.id ≠ m.id := by
        intro hid
        have : b = m := hinj b m (List.mem_cons_self b r) hm hid
        rw [this] at hpb
        exact hpb hpm
      rw [if_neg hbm, if_neg hpb]
      have hm2 : m ∈ r := by
        rcases List.mem_cons.mp hm with h1 | h1
        · exact absurd (congrArg Ball.id h1.symm) hbm
        · exact h1
      exact prevOfAux_eq_boundaryFrontAux p R m hpm r b hm2
        (fun a ha hpa => hnR a (List.mem_cons_of_mem b ha) hpa) hpair2
        (fun a a2 ha ha2 => hinj a a2 (List.mem_cons_of_mem b ha) (List.mem_cons_of_mem b ha2))

/-- C5: for a non-empty batch of chain-resident balls (with the
chain's documented invariants: fresh ids, strictly ascending distances,
no active gap), `removeBalls` removes exactly the batch, returns the
ball that preceded the front-most batch member and the ball that
followed the back-most one (`none` where the batch touches an end of
the chain), and begins gap closing — split point at the front
boundary's distance plus `2*BALL_RADIUS`, negative back velocity — if
and only if both boundary balls exist; otherwise the gap state is left
untouched. -/
theorem C5_remove_batch (ch : Chain) (s : List Ball)
    (hne : s ≠ [])
    (hsub : ∀ x ∈ s, x ∈ ch.balls)
    (hnd : (ch.balls.map Ball.id).Nodup)
    (hsorted : ch.balls.Pairwise fun a b => a.dist < b.dist)
    (hgap : ch.isClosingGap = false) :
    ((ch.removeBalls s).1.balls
      = ch.balls.filter fun b => !(s.any fun x => x.id == b.id)) ∧
    ((ch.removeBalls s).2.1 = boundaryFront (fun b => s.any fun x => x.id == b.id) ch.balls) ∧
    ((ch.removeBalls s).2.2 = boundaryBack (fun b => s.any fun x => x.id == b.id) ch.balls) ∧
    ((ch.removeBalls s).1.isGapClosing = true
      ↔ ((ch.removeBalls s).2.1.isSome = true ∧ (ch.removeBalls s).2.2.isSome = true)) ∧
    (∀ fb bb, (ch.removeBalls s).2.1 = some fb → (ch.removeBalls s).2.2 = some bb →
      (ch.removeBalls s).1.splitPoint = some (fb.dist + 2 * BALL_RADIUS) ∧
      (ch.removeBalls s).1.backVelocity = -SNAP_BACK_SPEED ∧
      (ch.removeBalls s).1.backVelocity < 0) ∧
    ((ch.removeBalls s).2.1 = none ∨ (ch.removeBalls s).2.2 = none →
      (ch.removeBalls s).1.splitPoint = ch.splitPoint ∧
      (ch.removeBalls s).1.backVelocity = ch.backVelocity ∧
      (ch.removeBalls s).1.isGapClosing = false) := by
  obtain ⟨m, rest, hsort⟩ : ∃ m rest, sortByDist s = m :: rest := by
    cases hs2 : sortByDist s with
    | nil =>
      exfalso
      cases s with
      | nil => exact hne rfl
      | cons a s2 =>
        have hmem : a ∈ sortByDist (a :: s2) :=
          (mem_sortByDist a _).mpr (List.mem_cons_self a s2)
        rw [hs2] at hmem
        cases hmem
    | cons m rest => exact ⟨m, rest, rfl⟩
  set p : Ball → Bool := fun b => s.any fun x => x.id == b.id with hp
  have hinj : ∀ a b, a ∈ ch.balls → b ∈ ch.balls → a.id = b.id → a = b := by
    intro a b ha hb hid
    exact List.inj_on_of_nodup_map hnd ha hb hid
  have hmem_p : ∀ b ∈ ch.balls, p b = true → b ∈ s := by
    intro b hb hpb
    rw [hp, List.any_eq_true] at hpb
    obtain ⟨x, hx, hxb⟩ := hpb
    have hid : x.id = b.id := by simpa using hxb
    have hxe := hinj x b (hsub x hx) hb hid
    rw [← hxe]
    exact hx
  have hp_of_mem : ∀ b ∈ s, p b = true := by
    intro b hb
    rw [hp, List.any_eq_true]
    exact ⟨b, hb, by simp⟩
  have hsorted_le : (m :: rest).Pairwise (fun a b => a.dist ≤ b.dist) := by
    rw [← hsort]
    exact pairwise_sortByDist s
  have hmem_sorted : ∀ y, y ∈ m :: rest ↔ y ∈ s := by
    intro y
    rw [← hsort]
    exact mem_sortByDist y s
  have hm_s : m ∈ s := (hmem_sorted m).mp (List.mem_cons_self m rest)
  set mx : Ball := (m :: rest).getLast (List.cons_ne_nil m rest) with hmx
  have hmx_s : mx ∈ s := (hmem_sorted mx).mp (List.getLast_mem _)
  have hmin : ∀ x ∈ s, m.dist ≤ x.dist := by
    intro x hx
    have hx2 : x ∈ m :: rest := (hmem_sorted x).mpr hx
    rcases List.mem_cons.mp hx2 with h1 | h1
    · rw [h1]
    · exact (List.pairwise_cons.mp hsorted_le).1 x h1
  have hmax : ∀ x ∈ s, x.dist ≤ mx.dist := by
    intro x hx
    exact pairwise_le_getLast _ _ hsorted_le x ((hmem_sorted x).mpr hx)
  have hfront : prevOf ch.balls m = boundaryFront p ch.balls := by
    refine prevOf_eq_boundaryFront p (fun a b => a.dist < b.dist) m (hp_of_mem m hm_s)
      ch.balls (hsub m hm_s) ?_ hsorted hinj
    intro b hb hpb
    exact not_lt.mpr (hmin b (hmem_p b hb hpb))
  have hback : nextOf ch.balls mx = boundaryBack p ch.balls := by
    unfold nextOf boundaryBack
    refine prevOf_eq_boundaryFront p (fun a b => b.dist < a.dist) mx (hp_of_mem mx hmx_s)
      ch.balls.reverse (List.mem_reverse.mpr (hsub mx hmx_s)) ?_ ?_ ?_
    · intro b hb hpb
      exact not_lt.mpr (hmax b (hmem_p b (List.mem_reverse.mp hb) hpb))
    · rw [List.pairwise_reverse]
      exact hsorted
    · intro a b ha hb
      exact hinj a b (List.mem_reverse.mp ha) (List.mem_reverse.mp hb)
  have hfoldl : (m :: rest).foldl removeBallFrom ch.balls
      = ch.balls.filter fun b => !(p b) := by
    rw [foldl_removeBallFrom_eq_filter (m :: rest) ch.balls hnd]
    apply List.filter_congr
    intro b _
    have hiff : ((m :: rest).any fun x => x.id == b.id) = true
        ↔ (s.any fun x => x.id == b.id) = true := by
      rw [List.any_eq_true, List.any_eq_true]
      constructor
      · rintro ⟨x, hx, hxx⟩
        exact ⟨x, (hmem_sorted x).mp hx, hxx⟩
      · rintro ⟨x, hx, hxx⟩
        exact ⟨x, (hmem_sorted x).mpr hx, hxx⟩
    rw [hp]
    rw [Bool.eq_iff_iff.mpr hiff]
  have hunfold : ch.removeBalls s
      = (match prevOf ch.balls m, nextOf ch.balls mx with
        | some fb, some bb =>
          ({ ch with
              balls := (m :: rest).foldl removeBallFrom ch.balls,
              splitPoint := some (fb.dist + 2 * BALL_RADIUS),
              backVelocity := -SNAP_BACK_SPEED,
              isClosingGap := true }, some fb, some bb)
        | _, _ =>
          ({ ch with balls := (m :: rest).foldl removeBallFrom ch.balls },
            prevOf ch.balls m, nextOf ch.balls mx)) := by
    unfold Chain.removeBalls
    rw [hsort]
  rw [hunfold, hfront, hback, hfoldl]
  have hsnap : (0 : ℚ) < SNAP_BACK_SPEED := by norm_num [SNAP_BACK_SPEED]
  rcases hfb : boundaryFront p ch.balls with _ | fb <;>
    rcases hbb : boundaryBack p ch.balls with _ | bb
  · refine ⟨rfl, rfl, rfl, ?_, ?_, ?_⟩
    · simp [Chain.isGapClosing, hgap]
    · intro fb bb h1 _
      cases h1
    · intro _
      exact ⟨rfl, rfl, hgap⟩
  · refine ⟨rfl, rfl, rfl, ?_, ?_, ?_⟩
    · simp [Chain.isGapClosing, hgap]
    · intro fb bb h1 _
      cases h1
    · intro _
      exact ⟨rfl, rfl, hgap⟩
  · refine ⟨rfl, rfl, rfl, ?_, ?_, ?_⟩
    · simp [Chain.isGapClosing, hgap]
    · intro fb bb _ h2
      cases h2
    · intro _
      exact ⟨rfl, rfl, hgap⟩
  · refine ⟨rfl, rfl, rfl, ?_, ?_, ?_⟩
    · simp [Chain.isGapClosing]
    · intro fb2 bb2 h1 h2
      cases h1
      cases h2
      refine ⟨rfl, rfl, ?_⟩
      simpa using neg_lt_zero.mpr hsnap
    · rintro (h1 | h1) <;> cases h1

/-- Witness for C5: removing the middle (blue) ball of the chain
`[red@0, blue@32, red@64]` returns its two neighbours as boundaries
and begins gap closing exactly because both exist. -/
theorem C5_remove_batch_witness :
    (((⟨[⟨0, BallColor.red, 0⟩, ⟨1, BallColor.blue, 32⟩, ⟨2, BallColor.red, 64⟩],
          50, none, 0, false⟩ : Chain).removeBalls [⟨1, BallColor.blue, 32⟩]).2.1
      = boundaryFront
          (fun b => ([⟨1, BallColor.blue, 32⟩] : List Ball).any fun x => x.id == b.id)
          [⟨0, BallColor.red, 0⟩, ⟨1, BallColor.blue, 32⟩, ⟨2, BallColor.red, 64⟩]) ∧
    ((((⟨[⟨0, BallColor.red, 0⟩, ⟨1, BallColor.blue, 32⟩, ⟨2, BallColor.red, 64⟩],
          50, none, 0, false⟩ : Chain).removeBalls [⟨1, BallColor.blue, 32⟩]).1.isGapClosing
        = true)
      ↔ ((((⟨[⟨0, BallColor.red, 0⟩, ⟨1, BallColor.blue, 32⟩, ⟨2, BallColor.red, 64⟩],
          50, none, 0, false⟩ : Chain).removeBalls [⟨1, BallColor.blue, 32⟩]).2.1.isSome = true)
        ∧ (((⟨[⟨0, BallColor.red, 0⟩, ⟨1, BallColor.blue, 32⟩, ⟨2, BallColor.red, 64⟩],
          50, none, 0, false⟩ : Chain).removeBalls [⟨1, BallColor.blue, 32⟩]).2.2.isSome
          = true))) := by
  have h := C5_remove_batch
    ⟨[⟨0, BallColor.red, 0⟩, ⟨1, BallColor.blue, 32⟩, ⟨2, BallColor.red, 64⟩],
      50, none, 0, false⟩
    [⟨1, BallColor.blue, 32⟩]
    (List.cons_ne_nil _ _)
    (by
      intro x hx
      rw [List.mem_singleton] at hx
      subst hx
      exact List.mem_cons_of_mem _ (List.mem_cons_self _ _))
    (by simp)
    (by norm_num [List.pairwise_cons])
    rfl
  exact ⟨h.2.1, h.2.2.2.1⟩

/-! ### Claim C3: the head→tail ordering invariant -/

/-- C3 evidence: two reachable chain states violate the strictly
increasing head→tail ordering that `Chain.ts` itself documents
(`head` = lowest distance) and the repository's data-model document
requires.  (1) `spawnInitialBalls` on an empty chain — exactly what
level start does with `initialBallCount ≥ 2` — inserts each successive
ball after the tail with a *smaller* distance, producing the strictly
decreasing sequence `[L, L − 2*BALL_RADIUS]`.  (2) A collision-driven
insertion at the exact spacing boundary (`checkBallChainCollision`
computes insertion distance `target − 2*BALL_RADIUS`, which equals the
predecessor's distance in a tightly packed chain) produces two balls at
the same distance. -/
theorem C3_ordering_violations :
    ((spawnInitialBalls ⟨[], 50, none, 0, false⟩ 1000 2 fun _ => BallColor.red).balls.map
        Ball.dist = [1000, 968]) ∧
    ¬ (spawnInitialBalls ⟨[], 50, none, 0, false⟩ 1000 2 fun _ => BallColor.red).ordered ∧
    ((Chain.insertBall ⟨[⟨0, BallColor.red, 100⟩, ⟨1, BallColor.red, 132⟩], 50, none, 0, false⟩
        ⟨2, BallColor.blue, 100⟩ (some 0)).balls.map Ball.dist = [100, 100, 132]) ∧
    ¬ (Chain.insertBall ⟨[⟨0, BallColor.red, 100⟩, ⟨1, BallColor.red, 132⟩], 50, none, 0, false⟩
        ⟨2, BallColor.blue, 100⟩ (some 0)).ordered := by
  have e1 : (spawnInitialBalls ⟨[], 50, none, 0, false⟩ 1000 2 fun _ => BallColor.red).balls
      = [⟨0, BallColor.red, 1000⟩, ⟨1, BallColor.red, 968⟩] := by
    norm_num [spawnInitialBalls, spawnInitialAux, Chain.insertBall, pushBallsBack, BALL_RADIUS]
  have e2 : (Chain.insertBall
      ⟨[⟨0, BallColor.red, 100⟩, ⟨1, BallColor.red, 132⟩], 50, none, 0, false⟩
      ⟨2, BallColor.blue, 100⟩ (some 0)).balls
      = [⟨0, BallColor.red, 100⟩, ⟨2, BallColor.blue, 100⟩, ⟨1, BallColor.red, 132⟩] := by
    norm_num [Chain.insertBall, pushBallsBack, BALL_RADIUS]
  refine ⟨by rw [e1]; rfl, ?_, by rw [e2]; rfl, ?_⟩
  · unfold Chain.ordered
    rw [e1, List.chain'_cons]
    rintro ⟨h, -⟩
    norm_num at h
  · unfold Chain.ordered
    rw [e2, List.chain'_cons]
    rintro ⟨h, -⟩
    norm_num at h

/-! ### Claim C2: blocked spawns and the accumulator -/

/-- When the spawn point is blocked by the chain tail (spacing
insufficient) but the chain is below capacity, every accumulated full
interval is consumed without spawning: the loop leaves the chain
untouched, counts nothing, and reduces the accumulator below one
interval. -/
theorem spawnLoop_spacing_blocked (L interval : ℚ) (maxBalls : ℕ) (colors : ℕ → BallColor)
    (ch : Chain) (t : Ball) (hpos : 0 < interval)
    (ht : ch.balls.getLast? = some t) (hno : L - t.dist < 2 * BALL_RADIUS)
    (hcap : ch.getLength < maxBalls) :
    ∀ (fuel : ℕ) (acc : ℚ) (nid spawned : ℕ), 0 ≤ acc → (⌊acc / interval⌋).toNat < fuel →
      spawnLoop L interval maxBalls colors fuel acc ch nid spawned
        = (acc - interval * ⌊acc / interval⌋, ch, nid, spawned) := by
  intro fuel
  induction fuel with
  | zero => intro acc nid spawned _ hf; omega
  | succ f ih =>
    intro acc nid spawned hacc hf
    by_cases hge : interval ≤ acc
    · have hguard : interval ≤ acc ∧ ch.getLength < maxBalls := ⟨hge, hcap⟩
      have hspawn : spawnBall ch L (colors nid) nid = (none, ch) := by
        unfold spawnBall
        rw [ht]
        simp [hno]
      have hfloor1 : 1 ≤ ⌊acc / interval⌋ := by
        rw [Int.le_floor]
        push_cast
        rw [le_div_iff₀ hpos]
        linarith
      have hfsub : ⌊(acc - interval) / interval⌋ = ⌊acc / interval⌋ - 1 := by
        have : (acc - interval) / interval = acc / interval - 1 := by
          field_simp
        rw [this]
        exact_mod_cast Int.floor_sub_int (acc / interval) 1
      have hrec := ih (acc - interval) nid spawned (by linarith)
        (by rw [hfsub]; omega)
      simp only [spawnLoop, if_pos hguard, hspawn, Option.isSome_none, Bool.false_eq_true,
        if_false, Nat.add_zero] at *
      rw [hrec, hfsub]
      have : acc - interval - interval * (↑(⌊acc / interval⌋ - 1))
          = acc - interval * ↑⌊acc / interval⌋ := by
        push_cast
        ring
      rw [this]
    · have hguard : ¬ (interval ≤ acc ∧ ch.getLength < maxBalls) := fun h => hge h.1
      have hfloor0 : ⌊acc / interval⌋ = 0 := by
        rw [Int.floor_eq_zero_iff]
        constructor
        · exact div_nonneg hacc (le_of_lt hpos)
        · rw [div_lt_one hpos]
          linarith [lt_of_not_le hge]
      simp only [spawnLoop, if_neg hguard, hfloor0]
      norm_num

/-- C2 counterexample: with spawn rate 1 and `maxBalls = 1`, a full
one-second tick against a full chain spawns nothing but leaves the
whole interval in the accumulator; a later half-second tick after the
chain has been emptied then performs that spawn even though less than
one interval of new time elapsed — the blocked interval was carried
over and compensated, contradicting the claim. -/
theorem C2_counterexample :
    (Spawner.update ⟨0, 1⟩ 1 ⟨[⟨0, BallColor.red, 500⟩], 50, none, 0, false⟩ 1000 1
      (fun _ => BallColor.red) 1).spawned = 0 ∧
    (Spawner.update ⟨0, 1⟩ 1 ⟨[⟨0, BallColor.red, 500⟩], 50, none, 0, false⟩ 1000 1
      (fun _ => BallColor.red) 1).accumulator = 1 ∧
    (Spawner.update ⟨1, 1⟩ (1/2) ⟨[], 50, none, 0, false⟩ 1000 1
      (fun _ => BallColor.red) 1).spawned = 1 := by
  refine ⟨?_, ?_, ?_⟩ <;>
    norm_num [Spawner.update, spawnLoop, spawnBall, Chain.insertBall, pushBallsBack,
      Chain.getLength, BALL_RADIUS]

/-- C2 amended: a spawn interval blocked by *capacity* is carried over
— when the chain is at or above `maxBalls` the update spawns nothing
and leaves the whole accumulated time (old accumulator plus `dt`) in
the accumulator, so a later call may perform those spawns once capacity
allows.  A spawn interval blocked by *spacing* behaves as the claim
says: it is consumed (the accumulator is reduced modulo one interval)
but not performed, the chain is untouched and the returned count
excludes it. -/
theorem C2_amended (sp : Spawner) (dt : ℚ) (ch : Chain) (L : ℚ) (maxBalls : ℕ)
    (colors : ℕ → BallColor) (nid : ℕ)
    (hrate : 0 < sp.spawnRate) (hacc : 0 ≤ sp.accumulator) (hdt : 0 ≤ dt) :
    (maxBalls ≤ ch.getLength →
      Spawner.update sp dt ch L maxBalls colors nid
        = ⟨0, sp.accumulator + dt, ch, nid⟩) ∧
    (∀ t, ch.balls.getLast? = some t → L - t.dist < 2 * BALL_RADIUS →
      ch.getLength < maxBalls →
      Spawner.update sp dt ch L maxBalls colors nid
        = ⟨0, (sp.accumulator + dt)
            - (1 / sp.spawnRate) * ⌊(sp.accumulator + dt) / (1 / sp.spawnRate)⌋, ch, nid⟩) := by
  have hpos : 0 < 1 / sp.spawnRate := by positivity
  constructor
  · intro hfull
    have hguard : ¬ (1 / sp.spawnRate ≤ sp.accumulator + dt ∧ ch.getLength < maxBalls) := by
      rintro ⟨-, hlt⟩
      omega
    unfold Spawner.update
    simp only [spawnLoop, if_neg hguard]
  · intro t ht hno hcap
    unfold Spawner.update
    simp only
    rw [spawnLoop_spacing_blocked L (1 / sp.spawnRate) maxBalls colors ch t hpos ht hno hcap
      _ _ _ _ (by linarith) (by omega)]

/-- Witness for C2 amended, spacing-blocked branch: rate 1, one ball at
distance 990 on a path of length 1000 (gap 10 < `2*BALL_RADIUS`),
capacity 5: one full interval is consumed, nothing spawns, the chain is
unchanged. -/
theorem C2_amended_witness :
    Spawner.update ⟨0, 1⟩ 1 ⟨[⟨0, BallColor.red, 990⟩], 50, none, 0, false⟩ 1000 5
      (fun _ => BallColor.red) 1
      = ⟨0, ((0 : ℚ) + 1) - (1 / 1) * ⌊((0 : ℚ) + 1) / (1 / 1)⌋,
          ⟨[⟨0, BallColor.red, 990⟩], 50, none, 0, false⟩, 1⟩ :=
  (C2_amended ⟨0, 1⟩ 1 ⟨[⟨0, BallColor.red, 990⟩], 50, none, 0, false⟩ 1000 5
      (fun _ => BallColor.red) 1 (by norm_num) (by norm_num) (by norm_num)).2
    ⟨0, BallColor.red, 990⟩ rfl (by norm_num [BALL_RADIUS]) (by decide)

/-- Witness for C8: a one-ball chain with head distance 100, speed 50,
tick 1/2 second: the hole is reached at tick 4 (distance hits 0) and
not at tick 3. -/
theorem C8_hole_reached_witness :
    (checkHoleCollision ⟨[⟨0, BallColor.red, 100⟩], 50, none, 0, false⟩ = true
      ↔ ∃ b, ([⟨0, BallColor.red, 100⟩] : List Ball).head? = some b ∧ b.dist ≤ 0) ∧
    ((checkHoleCollision ((⟨[⟨0, BallColor.red, 100⟩], 50, none, 0, false⟩ : Chain).updateIter
        (1/2) 4) = true ↔ (100 : ℚ) - (4 : ℕ) * (50 * (1/2)) ≤ 0)) := by
  have h := C8_hole_reached ⟨[⟨0, BallColor.red, 100⟩], 50, none, 0, false⟩ (1/2) rfl
  exact ⟨h.1, h.2 4 ⟨0, BallColor.red, 100⟩ rfl⟩

end Zuma
